import Mathlib

/-
Verification of the core logic of the Quiz-maker application.

The development shallowly embeds the TypeScript sources:
  * `src/services/geminiService.ts` — generation post-processing, option
    shuffling (Fisher–Yates), grading aggregation, tutor follow-up;
  * `src/UploadScreen.tsx` — configuration validation (`handleSubmit`);
  * `src/ResultScreen.tsx` — tutor follow-up error degradation (`handleAskAI`);
  * `src/QuizScreen.tsx` — the interactive quiz session state machine
    (answer map, per-type transient state, timer, finalization).

Remote AI calls are abstracted as an explicit outcome parameter; random
sources (`Math.random`) are abstracted as explicit function parameters.
JavaScript `Record` objects keyed by integers are modelled as association
lists kept in ascending key order, matching the enumeration order of
`Object.entries` for integer-like keys; records keyed by arbitrary strings
are modelled as insertion-ordered association lists.
-/

namespace QuizMaker

/-- Modelled from the spec: the closed set of question type tags declared in
`types.ts` (not present under `src/`), used as string enum values by the code. -/
inductive QuestionType where
  | MULTIPLE_CHOICE
  | TRUE_FALSE
  | FILL_IN_BLANK
  | SHORT_ANSWER
  | MATCHING
  | SEQUENCING
deriving DecidableEq, Repr

/-- Modelled from the spec: a (left, right) matching pair as declared in
`types.ts` and in the generation response schema. -/
structure MatchingPair where
  left : String
  right : String
deriving DecidableEq, Repr

/-- Modelled from the spec: the `Question` entity of `types.ts` — integer
identity, type tag, text, and type-conditional fields. -/
structure Question where
  id : Nat
  type : QuestionType
  text : String
  options : Option (List String) := none
  correctAnswer : Option String := none
  matchingPairs : Option (List MatchingPair) := none
  sequencingItems : Option (List String) := none
deriving DecidableEq, Repr

instance : Inhabited Question := ⟨{ id := 0, type := .SHORT_ANSWER, text := "" }⟩

/-- Modelled from the spec: the `UserAnswer` entity of `types.ts` — a question
identity plus a single string payload. -/
structure UserAnswer where
  questionId : Nat
  answer : String
deriving DecidableEq, Repr

/-- Modelled from the spec: the `UploadedFile` entity of `types.ts`. -/
structure UploadedFile where
  id : String
  name : String
  mimeType : String
  base64 : String
deriving DecidableEq, Repr

/-- The three difficulty levels offered by `UploadScreen.tsx`. -/
inductive Difficulty where
  | Easy
  | Medium
  | Hard
deriving DecidableEq, Repr

/-- Modelled from the spec: the `QuizConfig` entity of `types.ts`, constructed
once by `UploadScreen.handleSubmit`. -/
structure QuizConfig where
  documents : List UploadedFile
  numQuestions : Nat
  selectedTypes : List QuestionType
  autoDetect : Bool
  difficulty : Difficulty
  customInstructions : String
  timeLimit : Nat
deriving DecidableEq, Repr

/-- Modelled from the spec: a graded record of the grading response
(`gradedQuestions` array element in `geminiService.ts`'s `gradingSchema`). -/
structure GradedRecord where
  id : Nat
  isCorrect : Bool
  score : Rat
  explanation : String
  aiCorrection : String
deriving DecidableEq, Repr

/-- The grading response envelope (`gradingSchema` in `geminiService.ts`).
`overallFeedback` is optional here to model a missing/empty JSON field. -/
structure GradingResponse where
  gradedQuestions : List GradedRecord
  overallFeedback : Option String
deriving DecidableEq, Repr

/-- Modelled from the spec: the `GradedQuestion` entity of `types.ts` — an
original question merged with the matched user answer and grading outcome. -/
structure GradedQuestion where
  question : Question
  userAnswer : String
  isCorrect : Bool
  score : Rat
  explanation : String
  aiCorrection : String
deriving DecidableEq, Repr

/-- Modelled from the spec: the `QuizResult` entity of `types.ts`. -/
structure QuizResult where
  totalScore : Rat
  maxScore : Nat
  gradedQuestions : List GradedQuestion
  overallFeedback : String
deriving DecidableEq, Repr

/-- JavaScript `a || d` for a possibly-missing string `a`: the default is used
both when the value is absent and when it is the empty string (falsy). -/
def jsOrElse (s : Option String) (d : String) : String :=
  match s with
  | some v => if v = "" then d else v
  | none => d

/-- JavaScript truthiness of `process.env.API_KEY`: present and non-empty. -/
def jsPresent : Option String → Bool
  | some s => s ≠ ""
  | none => false

/-- Outcome of one remote call to the AI service, abstracting the transport:
either a response (with possibly-missing text) or a thrown failure. -/
inductive RemoteOutcome where
  | success (text : Option String)
  | failure (message : String)
deriving DecidableEq, Repr

/-! ## UploadScreen.handleSubmit (src/UploadScreen.tsx lines 115–134)

The validation performed before the quiz-start continuation `onStartQuiz`
is invoked.  `Except.error` models setting the error banner and returning
without calling `onStartQuiz`; `Except.ok cfg` models calling
`onStartQuiz cfg`. -/

def handleSubmit (documents : List UploadedFile) (numQuestions : Nat)
    (selectedTypes : List QuestionType) (autoDetect : Bool)
    (difficulty : Difficulty) (customInstructions : String)
    (timeLimit : Nat) : Except String QuizConfig :=
  if documents.length = 0 then
    .error "Please upload at least one lesson file."
  else if !autoDetect && selectedTypes.length = 0 then
    .error "Please select at least one question type or enable Auto-detect."
  else
    .ok { documents := documents, numQuestions := numQuestions,
          selectedTypes := selectedTypes, autoDetect := autoDetect,
          difficulty := difficulty,
          customInstructions := customInstructions.trim,
          timeLimit := timeLimit }

/-! ## Fisher–Yates shuffle (src/services/geminiService.ts lines 66–73)

`shuffleArray` copies the array and iterates `i` from `length-1` down to `1`,
swapping index `i` with a random index `j ∈ [0, i]`.  The random source is
abstracted as `rand : Nat → Nat`; `Math.floor(Math.random() * (i + 1))` is
modelled as `rand i % (i + 1)`, which ranges over exactly `[0, i]`. -/

def listSwap {α : Type} (l : List α) (i j : Nat) : List α :=
  match l[i]?, l[j]? with
  | some a, some b => (l.set i b).set j a
  | _, _ => l

def fyLoop {α : Type} (rand : Nat → Nat) : Nat → List α → List α
  | 0, l => l
  | i + 1, l => fyLoop rand i (listSwap l (i + 1) (rand (i + 1) % (i + 2)))

def shuffleArray {α : Type} (rand : Nat → Nat) (l : List α) : List α :=
  fyLoop rand (l.length - 1) l

/-! ## Generation post-processing (src/services/geminiService.ts lines 141–155)

After parsing, the code checks `if (!data.questions) throw new Error(...)`
and then shuffles the option list of every multiple-choice question. -/

/-- The parsed generation response envelope: `{ questions: Question[] }`,
with `none` modelling an absent (or JSON-null) `questions` key. -/
structure GenerationResponse where
  questions : Option (List Question)
deriving DecidableEq, Repr

/-- Per-question normalization step of `generateQuiz`: multiple-choice
questions with a present options array get their options shuffled; every
other question is returned unchanged. -/
def processQuestion (rand : Nat → Nat) (q : Question) : Question :=
  if q.type = .MULTIPLE_CHOICE then
    match q.options with
    | some opts => { q with options := some (shuffleArray rand opts) }
    | none => q
  else q

/-- The post-parse logic of `generateQuiz`: fail when the `questions` key is
absent, otherwise normalize each question. -/
def generateQuizPostprocess (rand : Nat → Nat) (data : GenerationResponse) :
    Except String (List Question) :=
  match data.questions with
  | none => .error "Invalid response structure"
  | some qs => .ok (qs.map (processQuestion rand))

/-! ## Grading aggregation (src/services/geminiService.ts lines 207–233) -/

/-- Merge a single graded record with the original question data
(`data.gradedQuestions.map(...)` body): look up the original question by
identity, throwing on a mismatch, and the user answer by identity,
defaulting to the empty string. -/
def mergeGraded (originalQuestions : List Question)
    (userAnswers : List UserAnswer) (gq : GradedRecord) :
    Except String GradedQuestion :=
  match originalQuestions.find? (fun q => q.id = gq.id) with
  | none => .error ("Question ID " ++ toString gq.id ++ " mismatch")
  | some original =>
      .ok { question := original,
            userAnswer :=
              jsOrElse ((userAnswers.find? (fun a => a.questionId = gq.id)).map
                (fun a => a.answer)) "",
            isCorrect := gq.isCorrect,
            score := gq.score,
            explanation := gq.explanation,
            aiCorrection := gq.aiCorrection }

/-- The `.map` over `data.gradedQuestions` with a `throw` inside aborts at the
first mismatching record, yielding no partial list. -/
def mergeAll (originalQuestions : List Question)
    (userAnswers : List UserAnswer) :
    List GradedRecord → Except String (List GradedQuestion)
  | [] => .ok []
  | g :: gs =>
    match mergeGraded originalQuestions userAnswers g with
    | .error e => .error e
    | .ok x =>
      match mergeAll originalQuestions userAnswers gs with
      | .error e => .error e
      | .ok xs => .ok (x :: xs)

/-- The aggregation part of `gradeQuiz`: merge every graded record, sum the
scores, and build the `QuizResult` (max score = original question count). -/
def gradeQuizAggregate (originalQuestions : List Question)
    (userAnswers : List UserAnswer) (data : GradingResponse) :
    Except String QuizResult :=
  match mergeAll originalQuestions userAnswers data.gradedQuestions with
  | .error e => .error e
  | .ok merged =>
      .ok { totalScore := merged.foldl (fun acc curr => acc + curr.score) 0,
            maxScore := originalQuestions.length,
            gradedQuestions := merged,
            overallFeedback := jsOrElse data.overallFeedback "Quiz completed." }

/-! ## Tutor follow-up (src/services/geminiService.ts lines 241–267 and
src/ResultScreen.tsx lines 25–37) -/

/-- `explainQuestion`: fails fast if the API key is missing, propagates a
remote failure, and otherwise returns the response text with a fallback for
missing text.  The prompt inputs do not influence the control flow. -/
def explainQuestion (apiKey : Option String) (outcome : RemoteOutcome)
    (questionText userAnswer correctAnswer query : String) :
    Except String String :=
  if !jsPresent apiKey then .error "API Key missing"
  else
    match outcome with
    | .success t => .ok (jsOrElse t "I couldn't generate an explanation at this time.")
    | .failure m => .error m

/-- `ResultScreen.handleAskAI`: ignores blank queries, calls
`explainQuestion`, and degrades any failure to a friendly fallback string.
The returned value is the chat response displayed to the user (`none` models
"no query was made"). -/
def handleAskAI (chatInput : String) (apiKey : Option String)
    (outcome : RemoteOutcome) (q : GradedQuestion) : Option String :=
  if chatInput.trim = "" then none
  else
    match explainQuestion apiKey outcome q.question.text q.userAnswer
        q.aiCorrection chatInput with
    | .ok s => some s
    | .error _ => some "Sorry, I couldn't connect to the AI tutor right now."

/-! ## Matching dropdown options (src/QuizScreen.tsx lines 250–278)

`const rightOptions = currentQuestion.matchingPairs?.map(p => p.right).sort() || [];`
computed once per render, then used as the option list of the dropdown of
every left item. -/

/-- The right-side option list of a matching question: all right items of the
pairs, sorted (JavaScript default string sort), duplicates retained. -/
def rightOptionsOf (q : Question) : List String :=
  ((q.matchingPairs.getD []).map (fun p => p.right)).mergeSort

/-- The choices offered in the dropdown rendered for one left item: the same
`rightOptions` list, whichever left item is being matched. -/
def offeredChoicesFor (q : Question) (leftItem : String) : List String :=
  rightOptionsOf q

/-! ## The sequencing answer encoding (src/QuizScreen.tsx lines 62–73)

`sequenceItems.join(' || ')` encodes the working order; the spec's
reversibility property re-derives the order by splitting the encoded string
on `" || "`.  Strings are modelled as character lists; `splitOnSepGo`
mirrors JavaScript `String.prototype.split` with the fixed four-character
separator: scan left to right, take the leftmost occurrence, continue after
it (non-overlapping). -/

def sepChars : List Char := [' ', '|', '|', ' ']

/-- Does the list start with the separator `" || "`? -/
def sepLeads : List Char → Bool
  | ' ' :: '|' :: '|' :: ' ' :: _ => true
  | _ => false

/-- JavaScript `s.split(" || ")` on character lists: `acc` accumulates the
current piece in reverse. -/
def splitOnSepGo : List Char → List Char → List (List Char)
  | acc, [] => [acc.reverse]
  | acc, c :: cs =>
    if sepLeads (c :: cs) then acc.reverse :: splitOnSepGo [] (cs.drop 3)
    else splitOnSepGo (c :: acc) cs
termination_by _ l => l.length
decreasing_by
  · simp [List.length_drop]; omega
  · simp

def splitOnSep (l : List Char) : List (List Char) :=
  splitOnSepGo [] l

/-- Does the list contain the separator `" || "` anywhere? -/
def containsSep : List Char → Bool
  | [] => false
  | c :: cs => sepLeads (c :: cs) || containsSep cs

/-- Does the list end with `" ||"` (the separator minus its final space)?
Such a tail merges with the following separator into an earlier occurrence. -/
def endsInSepOpen : List Char → Bool
  | [] => false
  | c :: cs => if c :: cs = [' ', '|', '|'] then true else endsInSepOpen cs

/-- JavaScript `items.join(" || ")` on character lists. -/
def joinWithSep : List (List Char) → List Char
  | [] => []
  | [x] => x
  | x :: y :: rest => x ++ ' ' :: '|' :: '|' :: ' ' :: joinWithSep (y :: rest)

/-! ## The quiz session state machine (src/QuizScreen.tsx)

React state of `QuizScreen` plus the list of `onSubmit` payloads.  The
`Record<number, string>` answer map is an association list in ascending key
order (the enumeration order of `Object.entries` for integer keys); the
`Record<string, string>` matching-selection map is an insertion-ordered
association list.  `Math.random`-based shuffling of sequencing items
(`[...items].sort(() => Math.random() - 0.5)`, some rearrangement of the
items) is abstracted as a `shuffle` function indexed by a call counter. -/

/-- `{...prev, [id]: val}` on an integer-keyed record: update in place or
insert in ascending key position. -/
def setKey : List (Nat × String) → Nat → String → List (Nat × String)
  | [], k, v => [(k, v)]
  | (k', v') :: rest, k, v =>
    if k < k' then (k, v) :: (k', v') :: rest
    else if k = k' then (k, v) :: rest
    else (k', v') :: setKey rest k v

def lookupKey (m : List (Nat × String)) (k : Nat) : Option String :=
  match m with
  | [] => none
  | e :: rest => if e.1 = k then some e.2 else lookupKey rest k

def keysOf (m : List (Nat × String)) : List Nat :=
  m.map (fun e => e.1)

/-- `{...prev, [left]: right}` on a string-keyed record: overwrite in place
or append at the end (insertion order). -/
def setStrKey : List (String × String) → String → String → List (String × String)
  | [], l, r => [(l, r)]
  | (l', r') :: rest, l, r =>
    if l' = l then (l, r) :: rest else (l', r') :: setStrKey rest l r

/-- `Object.entries(matchSelections).map(([l, r]) => l + " -> " + r).join(", ")`. -/
def joinMatches (sels : List (String × String)) : String :=
  String.intercalate ", " (sels.map (fun p => p.1 ++ " -> " ++ p.2))

/-- Lookup in a finalized `UserAnswer` list by question identity. -/
def lookupAnswer (l : List UserAnswer) (k : Nat) : Option String :=
  match l with
  | [] => none
  | a :: rest => if a.questionId = k then some a.answer else lookupAnswer rest k

/-- The question identities of a `UserAnswer` list. -/
def answerIds (l : List UserAnswer) : List Nat :=
  l.map (fun a => a.questionId)

inductive MoveDir where
  | up
  | down
deriving DecidableEq, Repr

/-- The discrete user/timer events of the quiz session. -/
inductive QEvent where
  | input (val : String)
  | matchSelect (left right : String)
  | move (index : Nat) (dir : MoveDir)
  | next
  | prev
  | tick
deriving DecidableEq, Repr

/-- The React state of `QuizScreen`, plus `submissions`: the list of answer
sets passed to `onSubmit` (finalization events). -/
structure QuizState where
  answers : List (Nat × String)
  currentIdx : Nat
  timeLeft : Nat
  timerActive : Bool
  sequenceItems : List String
  matchSelections : List (String × String)
  shuffleCount : Nat
  submissions : List (List UserAnswer)
deriving DecidableEq, Repr

def currentQuestion (questions : List Question) (s : QuizState) : Question :=
  questions.getD s.currentIdx default

/-- The `currentAns` computed at the top of `getFormattedAnswers`
(lines 76–85): the live encoding of the current question's answer. -/
def currentAnsOf (questions : List Question) (s : QuizState) : String :=
  match (currentQuestion questions s).type with
  | .SEQUENCING => String.intercalate " || " s.sequenceItems
  | .MATCHING => joinMatches s.matchSelections
  | _ => (lookupKey s.answers (currentQuestion questions s).id).getD ""

/-- The `questions.forEach` loop of `getFormattedAnswers` (lines 95–100):
push an empty-string entry for every question identity not yet present. -/
def ensureAll (questions : List Question) (acc : List UserAnswer) : List UserAnswer :=
  questions.foldl
    (fun acc q =>
      if acc.any (fun a => a.questionId = q.id) then acc
      else acc ++ [{ questionId := q.id, answer := "" }]) acc

/-- `getFormattedAnswers` (lines 75–103): merge the current question's live
answer into the answer map, convert to `UserAnswer`s, and default every
missing question identity to the empty string. -/
def getFormattedAnswers (questions : List Question) (s : QuizState) : List UserAnswer :=
  ensureAll questions
    ((setKey s.answers (currentQuestion questions s).id (currentAnsOf questions s)).map
      (fun e => { questionId := e.1, answer := e.2 }))

/-- `saveComplexAnswer` (lines 62–73): commit the transient sequencing or
matching state into the answer map under the current question's identity. -/
def saveComplexAnswer (questions : List Question) (s : QuizState) : QuizState :=
  let q := currentQuestion questions s
  match q.type with
  | .SEQUENCING =>
      { s with answers := setKey s.answers q.id (String.intercalate " || " s.sequenceItems) }
  | .MATCHING =>
      { s with answers := setKey s.answers q.id (joinMatches s.matchSelections) }
  | _ => s

/-- The question-change effect (lines 46–56): when the (new) current question
is a sequencing question with a present item list, install a fresh random
rearrangement of its items; when it is a matching question, clear the
selection map. -/
def questionInitEffect (questions : List Question)
    (shuffle : Nat → List String → List String) (s : QuizState) : QuizState :=
  match (currentQuestion questions s).type, (currentQuestion questions s).sequencingItems with
  | .SEQUENCING, some items =>
      { s with sequenceItems := shuffle s.shuffleCount items,
               shuffleCount := s.shuffleCount + 1 }
  | .SEQUENCING, none => s
  | .MATCHING, _ => { s with matchSelections := [] }
  | _, _ => s

/-- `moveItem` (lines 148–156): swap the item at `index` with its predecessor
(`up`, no-op at index 0) or successor (`down`, no-op at the last index). -/
def moveItem (s : QuizState) (index : Nat) (dir : MoveDir) : QuizState :=
  match dir with
  | .up =>
      if 0 < index then
        { s with sequenceItems := listSwap s.sequenceItems index (index - 1) }
      else s
  | .down =>
      if index < s.sequenceItems.length - 1 then
        { s with sequenceItems := listSwap s.sequenceItems index (index + 1) }
      else s

/-- One transition of the session state machine. -/
def step (questions : List Question) (shuffle : Nat → List String → List String)
    (s : QuizState) : QEvent → QuizState
  | .input v =>
    match (currentQuestion questions s).type with
    | .SEQUENCING => s
    | .MATCHING => s
    | _ => { s with answers := setKey s.answers (currentQuestion questions s).id v }
  | .matchSelect l r =>
    match (currentQuestion questions s).type with
    | .MATCHING => { s with matchSelections := setStrKey s.matchSelections l r }
    | _ => s
  | .move i d =>
    match (currentQuestion questions s).type with
    | .SEQUENCING => moveItem s i d
    | _ => s
  | .next =>
    let s1 := saveComplexAnswer questions s
    if s.currentIdx = questions.length - 1 then
      { s1 with submissions := s1.submissions ++ [getFormattedAnswers questions s1] }
    else
      questionInitEffect questions shuffle { s1 with currentIdx := s1.currentIdx + 1 }
  | .prev =>
    if s.currentIdx = 0 then s
    else questionInitEffect questions shuffle { s with currentIdx := s.currentIdx - 1 }
  | .tick =>
    if s.timerActive then
      if s.timeLeft ≤ 1 then
        { s with timeLeft := 0, timerActive := false,
                 submissions := s.submissions ++ [getFormattedAnswers questions s] }
      else { s with timeLeft := s.timeLeft - 1 }
    else s

/-- The state after mounting `QuizScreen`: empty answer map, index 0, timer
armed from `timeLimit * 60` seconds when a limit is set, and the
question-change effect already run for question 0. -/
def initState (questions : List Question)
    (shuffle : Nat → List String → List String) (timeLimit : Nat) : QuizState :=
  questionInitEffect questions shuffle
    { answers := [], currentIdx := 0, timeLeft := timeLimit * 60,
      timerActive := decide (0 < timeLimit), sequenceItems := [],
      matchSelections := [], shuffleCount := 0, submissions := [] }

/-- Run the session from mount over a list of events. -/
def runEvents (questions : List Question)
    (shuffle : Nat → List String → List String) (timeLimit : Nat)
    (events : List QEvent) : QuizState :=
  events.foldl (step questions shuffle) (initState questions shuffle timeLimit)

/-- The current-index evolution of the machine, replayed from the events
alone (only `next` and `prev` move the index). -/
def idxAfter (numQuestions idx : Nat) : QEvent → Nat
  | .next => if idx = numQuestions - 1 then idx else idx + 1
  | .prev => if idx = 0 then idx else idx - 1
  | _ => idx

/-- All question indices the user visited during the event list (index 0 is
visited at mount). -/
def visitedIdxs (numQuestions : Nat) (events : List QEvent) : List Nat :=
  events.scanl (idxAfter numQuestions) 0

/-- The answer recorded for the (index-0) current question when a session
times out with no user interaction: the empty string, except the shuffled
item order for a sequencing first question. -/
def initialCurrentAnswer (questions : List Question)
    (shuffle : Nat → List String → List String) : String :=
  match (questions.getD 0 default).type, (questions.getD 0 default).sequencingItems with
  | .SEQUENCING, some items => String.intercalate " || " (shuffle 0 items)
  | _, _ => ""

/-! ### Concrete fixtures used by witness theorems -/

/-- A concrete one-question quiz used by the C4 witness. -/
def c4Question : Question := { id := 1, type := .TRUE_FALSE, text := "t" }

/-- A concrete graded record with a chosen identity, used by the C4 witness. -/
def c4Record (n : Nat) : GradedRecord :=
  { id := n, isCorrect := true, score := 1, explanation := "e", aiCorrection := "c" }

/-- A concrete grading response with a single record, used by the C4 witness. -/
def c4Response (n : Nat) : GradingResponse :=
  { gradedQuestions := [c4Record n], overallFeedback := none }

/-- A concrete uploaded document used by the C5 witness. -/
def c5Document : UploadedFile :=
  { id := "d", name := "n", mimeType := "application/pdf", base64 := "QQ==" }

/-- A concrete matching question with two pairs sharing the same right-side
value, used by the C8 counterexample. -/
def c8Question : Question :=
  { id := 1, type := .MATCHING, text := "m",
    matchingPairs := some [{ left := "A", right := "X" },
                           { left := "B", right := "X" }] }

/-- A concrete sequencing question with a single item, used by the session
counterexamples: any rearrangement of `["a"]` is `["a"]` itself. -/
def c1SeqQuestion : Question :=
  { id := 0, type := .SEQUENCING, text := "s", sequencingItems := some ["a"] }

/-- A concrete short-answer question, used by the session counterexamples. -/
def c1ShortQuestion : Question :=
  { id := 1, type := .SHORT_ANSWER, text := "w" }

/-- A concrete two-item sequencing question, used by the C10 witness. -/
def c10Question : Question :=
  { id := 0, type := .SEQUENCING, text := "s", sequencingItems := some ["a", "b"] }

/-! ## Permutation facts about the swap-based shuffles -/

theorem cons_set_perm {α : Type} (xs : List α) :
    ∀ (k : Nat) (a b : α), xs[k]? = some b →
      (b :: xs.set k a).Perm (a :: xs) := by
  induction xs with
  | nil => intro k a b h; simp at h
  | cons y ys ih =>
    intro k a b h
    cases k with
    | zero =>
      rw [List.getElem?_cons_zero] at h
      injection h with h
      subst h
      have e1 : (y :: ys).set 0 a = a :: ys := rfl
      rw [e1]
      exact List.Perm.swap a y ys
    | succ m =>
      rw [List.getElem?_cons_succ] at h
      have h2 := ih m a b h
      have e1 : (y :: ys).set (m + 1) a = y :: ys.set m a := rfl
      rw [e1]
      exact ((List.Perm.swap y b _).trans (h2.cons y)).trans (List.Perm.swap a y ys)

theorem set_set_perm {α : Type} (l : List α) :
    ∀ (i j : Nat) (a b : α), l[i]? = some a → l[j]? = some b →
      ((l.set i b).set j a).Perm l := by
  induction l with
  | nil => intro i j a b h _; simp at h
  | cons x xs ih =>
    intro i j a b hi hj
    cases i with
    | zero =>
      rw [List.getElem?_cons_zero] at hi
      injection hi with hi
      subst hi
      cases j with
      | zero =>
        rw [List.getElem?_cons_zero] at hj
        injection hj with hj
        subst hj
        have e1 : ((x :: xs).set 0 x).set 0 x = x :: xs := rfl
        rw [e1]
      | succ k =>
        rw [List.getElem?_cons_succ] at hj
        have e1 : ((x :: xs).set 0 b).set (k + 1) x = b :: xs.set k x := rfl
        rw [e1]
        exact cons_set_perm xs k x b hj
    | succ m =>
      rw [List.getElem?_cons_succ] at hi
      cases j with
      | zero =>
        rw [List.getElem?_cons_zero] at hj
        injection hj with hj
        subst hj
        have e1 : ((x :: xs).set (m + 1) x).set 0 a = a :: xs.set m x := rfl
        rw [e1]
        exact cons_set_perm xs m x a hi
      | succ k =>
        rw [List.getElem?_cons_succ] at hj
        have e1 : ((x :: xs).set (m + 1) b).set (k + 1) a = x :: (xs.set m b).set k a := rfl
        rw [e1]
        exact (ih m k a b hi hj).cons x

theorem listSwap_perm {α : Type} (l : List α) (i j : Nat) :
    (listSwap l i j).Perm l := by
  unfold listSwap
  cases hi : l[i]? with
  | none => simp
  | some a =>
    cases hj : l[j]? with
    | none => simp
    | some b => exact set_set_perm l i j a b hi hj

theorem fyLoop_perm {α : Type} (rand : Nat → Nat) :
    ∀ (n : Nat) (l : List α), (fyLoop rand n l).Perm l := by
  intro n
  induction n with
  | zero => intro l; exact List.Perm.refl l
  | succ i ih =>
    intro l
    rw [fyLoop]
    exact (ih _).trans (listSwap_perm l (i + 1) _)

theorem shuffleArray_perm {α : Type} (rand : Nat → Nat) (l : List α) :
    (shuffleArray rand l).Perm l :=
  fyLoop_perm rand (l.length - 1) l

/-! ## C7 — multiple-choice normalization is a frame-preserving permutation -/

/-- C7: normalizing a multiple-choice question replaces its option list by a
permutation of it and leaves every other field (in particular
`correctAnswer`) unchanged; any non-multiple-choice question passes through
entirely unchanged. -/
theorem processQuestion_spec (rand : Nat → Nat) (q : Question) :
    (∀ opts, q.type = QuestionType.MULTIPLE_CHOICE → q.options = some opts →
      processQuestion rand q = { q with options := some (shuffleArray rand opts) } ∧
      (shuffleArray rand opts).Perm opts ∧
      (processQuestion rand q).correctAnswer = q.correctAnswer) ∧
    (q.type ≠ QuestionType.MULTIPLE_CHOICE → processQuestion rand q = q) := by
  constructor
  · intro opts ht hopts
    refine ⟨by simp [processQuestion, ht, hopts], shuffleArray_perm rand opts, ?_⟩
    simp [processQuestion, ht, hopts]
  · intro ht
    simp [processQuestion, ht]

/-- Witness for C7 at a concrete multiple-choice question. -/
theorem processQuestion_spec_witness :
    processQuestion (fun _ => 0)
        { id := 1, type := .MULTIPLE_CHOICE, text := "pick",
          options := some ["a", "b", "c"], correctAnswer := some "a" } =
      { id := 1, type := .MULTIPLE_CHOICE, text := "pick",
        options := some (shuffleArray (fun _ => 0) ["a", "b", "c"]),
        correctAnswer := some "a" } ∧
    (shuffleArray (fun _ => 0) ["a", "b", "c"]).Perm ["a", "b", "c"] ∧
    (processQuestion (fun _ => 0)
        { id := 1, type := .MULTIPLE_CHOICE, text := "pick",
          options := some ["a", "b", "c"],
          correctAnswer := some "a" }).correctAnswer = some "a" :=
  (processQuestion_spec (fun _ => 0)
    { id := 1, type := .MULTIPLE_CHOICE, text := "pick",
      options := some ["a", "b", "c"], correctAnswer := some "a" }).1
    ["a", "b", "c"] rfl rfl

/-! ## C3 — generation response validation -/

/-- C3 counterexample: a response whose `questions` key is present but holds
zero questions is *not* rejected — `![]` is `false` in JavaScript — and the
empty question list is returned to the caller. -/
theorem generateQuizPostprocess_counterexample :
    generateQuizPostprocess (fun _ => 0) { questions := some [] } =
      Except.ok [] := rfl

/-- C3 (amended): the post-processing fails exactly when the top-level
`questions` array is absent; a present `questions` array — even an empty
one — is normalized and returned. -/
theorem generateQuizPostprocess_spec (rand : Nat → Nat) (data : GenerationResponse) :
    (data.questions = none →
      generateQuizPostprocess rand data = .error "Invalid response structure") ∧
    (∀ qs, data.questions = some qs →
      generateQuizPostprocess rand data = .ok (qs.map (processQuestion rand))) := by
  constructor
  · intro h; simp [generateQuizPostprocess, h]
  · intro qs h; simp [generateQuizPostprocess, h]

/-- Witness for C3's amended claim on both branches. -/
theorem generateQuizPostprocess_spec_witness :
    generateQuizPostprocess (fun _ => 0) { questions := none } =
      .error "Invalid response structure" ∧
    generateQuizPostprocess (fun _ => 0)
        { questions := some [{ id := 1, type := .TRUE_FALSE, text := "t" }] } =
      .ok ([{ id := 1, type := .TRUE_FALSE, text := "t" }].map
        (processQuestion (fun _ => 0))) :=
  ⟨(generateQuizPostprocess_spec (fun _ => 0) { questions := none }).1 rfl,
   (generateQuizPostprocess_spec (fun _ => 0)
      { questions := some [{ id := 1, type := .TRUE_FALSE, text := "t" }] }).2
      [{ id := 1, type := .TRUE_FALSE, text := "t" }] rfl⟩

/-! ## C4 — grading aggregation identity round-trip -/

theorem mergeAll_error_of_unmatched (qs : List Question) (uas : List UserAnswer) :
    ∀ gs : List GradedRecord, (∃ g ∈ gs, ∀ q ∈ qs, q.id ≠ g.id) →
      ∃ e, mergeAll qs uas gs = .error e := by
  intro gs
  induction gs with
  | nil => rintro ⟨g, hg, -⟩; cases hg
  | cons g' gs' ih =>
    rintro ⟨g, hg, hbad⟩
    unfold mergeAll
    cases hm : mergeGraded qs uas g' with
    | error e => exact ⟨e, rfl⟩
    | ok x =>
      rcases List.mem_cons.mp hg with rfl | hmem
      · unfold mergeGraded at hm
        cases hf : qs.find? (fun q => q.id = g.id) with
        | none => rw [hf] at hm; cases hm
        | some q0 =>
          have hq0 := List.mem_of_find?_eq_some hf
          have hp := List.find?_some hf
          simp only [decide_eq_true_eq] at hp
          exact absurd hp (hbad q0 hq0)
      · obtain ⟨e, he⟩ := ih ⟨g, hmem, hbad⟩
        rw [he]
        exact ⟨e, rfl⟩

theorem mergeAll_ok_of_matched (qs : List Question) (uas : List UserAnswer) :
    ∀ gs : List GradedRecord, (∀ g ∈ gs, ∃ q ∈ qs, q.id = g.id) →
      ∃ l, mergeAll qs uas gs = .ok l ∧ l.length = gs.length := by
  intro gs
  induction gs with
  | nil => intro _; exact ⟨[], rfl, rfl⟩
  | cons g' gs' ih =>
    intro h
    obtain ⟨q, hq, hid⟩ := h g' (List.mem_cons_self g' gs')
    obtain ⟨l, hl, hlen⟩ := ih (fun g hg => h g (List.mem_cons_of_mem _ hg))
    cases hf : qs.find? (fun q => q.id = g'.id) with
    | none =>
      rw [List.find?_eq_none] at hf
      have := hf q hq
      simp only [decide_eq_true_eq] at this
      exact absurd hid this
    | some q0 =>
      have hmg : ∃ x, mergeGraded qs uas g' = .ok x := by
        unfold mergeGraded
        rw [hf]
        exact ⟨_, rfl⟩
      obtain ⟨x, hmg⟩ := hmg
      refine ⟨x :: l, ?_, by simp [hlen]⟩
      unfold mergeAll
      rw [hmg, hl]

/-- C4: if any graded record's identity matches no original question, the
aggregation aborts with an error (no partial `QuizResult`); if every
identity matches, a full `QuizResult` is produced, with one merged record
per response record and `maxScore` equal to the original question count. -/
theorem gradeQuizAggregate_identity (qs : List Question) (uas : List UserAnswer)
    (data : GradingResponse) :
    ((∃ g ∈ data.gradedQuestions, ∀ q ∈ qs, q.id ≠ g.id) →
      ∃ e, gradeQuizAggregate qs uas data = .error e) ∧
    ((∀ g ∈ data.gradedQuestions, ∃ q ∈ qs, q.id = g.id) →
      ∃ r, gradeQuizAggregate qs uas data = .ok r ∧
        r.gradedQuestions.length = data.gradedQuestions.length ∧
        r.maxScore = qs.length) := by
  constructor
  · intro h
    obtain ⟨e, he⟩ := mergeAll_error_of_unmatched qs uas data.gradedQuestions h
    exact ⟨e, by simp [gradeQuizAggregate, he]⟩
  · intro h
    obtain ⟨l, hl, hlen⟩ := mergeAll_ok_of_matched qs uas data.gradedQuestions h
    refine ⟨{ totalScore := l.foldl (fun acc curr => acc + curr.score) 0,
              maxScore := qs.length, gradedQuestions := l,
              overallFeedback := jsOrElse data.overallFeedback "Quiz completed." },
            ?_, by simp [hlen], rfl⟩
    unfold gradeQuizAggregate
    rw [hl]

/-- Witness for C4 on both branches at concrete inputs. -/
theorem gradeQuizAggregate_identity_witness :
    (∃ e, gradeQuizAggregate [c4Question] [] (c4Response 2) = .error e) ∧
    (∃ r, gradeQuizAggregate [c4Question] [] (c4Response 1) = .ok r ∧
      r.gradedQuestions.length = 1 ∧ r.maxScore = 1) := by
  constructor
  · exact (gradeQuizAggregate_identity [c4Question] [] (c4Response 2)).1
      ⟨c4Record 2, List.mem_singleton.mpr rfl, by decide⟩
  · obtain ⟨r, hr, h1, h2⟩ := (gradeQuizAggregate_identity [c4Question] [] (c4Response 1)).2
      (fun g hg => ⟨c4Question, List.mem_singleton.mpr rfl, by
        have hg2 := List.mem_singleton.mp hg
        subst hg2
        rfl⟩)
    refine ⟨r, hr, ?_, h2⟩
    simpa [c4Response] using h1

/-! ## C5 — configuration validation before submission -/

/-- C5: with an empty document set, or with auto-detect off and no selected
type, `handleSubmit` reports a validation error and never invokes the
quiz-start continuation; with at least one document and either auto-detect
on or a non-empty type set, submission proceeds. -/
theorem handleSubmit_validation (documents : List UploadedFile) (numQuestions : Nat)
    (selectedTypes : List QuestionType) (autoDetect : Bool) (difficulty : Difficulty)
    (customInstructions : String) (timeLimit : Nat) :
    (documents = [] →
      handleSubmit documents numQuestions selectedTypes autoDetect difficulty
          customInstructions timeLimit =
        .error "Please upload at least one lesson file.") ∧
    (documents ≠ [] → autoDetect = false → selectedTypes = [] →
      handleSubmit documents numQuestions selectedTypes autoDetect difficulty
          customInstructions timeLimit =
        .error "Please select at least one question type or enable Auto-detect.") ∧
    (documents ≠ [] → (autoDetect = true ∨ selectedTypes ≠ []) →
      ∃ cfg, handleSubmit documents numQuestions selectedTypes autoDetect difficulty
          customInstructions timeLimit = .ok cfg) := by
  refine ⟨?_, ?_, ?_⟩
  · intro h
    simp [handleSubmit, h]
  · intro hdoc hauto hsel
    simp [handleSubmit, hdoc, hauto, hsel]
  · intro hdoc hok
    have hlen : ¬ documents.length = 0 := by
      simpa [List.length_eq_zero] using hdoc
    refine ⟨{ documents := documents, numQuestions := numQuestions,
              selectedTypes := selectedTypes, autoDetect := autoDetect,
              difficulty := difficulty,
              customInstructions := customInstructions.trim,
              timeLimit := timeLimit }, ?_⟩
    unfold handleSubmit
    rw [if_neg hlen, if_neg ?_]
    · simp
      intro hf
      rcases hok with h | h
      · rw [h] at hf
        exact absurd hf (by decide)
      · exact h

/-- Witness for C5 on all three branches at concrete inputs. -/
theorem handleSubmit_validation_witness :
    (handleSubmit [] 5 [] true .Medium "" 0 =
      .error "Please upload at least one lesson file.") ∧
    (handleSubmit [c5Document] 5 [] false .Medium "" 0 =
      .error "Please select at least one question type or enable Auto-detect.") ∧
    (∃ cfg, handleSubmit [c5Document] 5 [] true .Medium "" 0 = .ok cfg) :=
  ⟨(handleSubmit_validation [] 5 [] true .Medium "" 0).1 rfl,
   (handleSubmit_validation [c5Document] 5 [] false .Medium "" 0).2.1
      (by simp) rfl rfl,
   (handleSubmit_validation [c5Document] 5 [] true .Medium "" 0).2.2
      (by simp) (Or.inl rfl)⟩

/-! ## C8 — matching dropdown choices -/

/-- C8 counterexample: with two pairs sharing the right value `"X"`, the
offered list is `["X", "X"]` — the sorted multiset of right items with
duplicates retained, not the duplicate-free set the claim describes. -/
theorem rightOptions_counterexample :
    rightOptionsOf c8Question = ["X", "X"] ∧
    ¬ (["X", "X"] : List String).Nodup := by
  constructor
  · have hp : (rightOptionsOf c8Question).Perm ["X", "X"] := by
      have h := List.mergeSort_perm
        ((c8Question.matchingPairs.getD []).map (fun p => p.right))
        (fun a b => a ≤ b)
      simpa [rightOptionsOf, c8Question] using h
    have hs : (rightOptionsOf c8Question).Sorted (· ≤ ·) :=
      List.sorted_mergeSort' _
    exact List.eq_of_perm_of_sorted hp hs (by simp)
  · decide

/-- C8 (amended): for every question the dropdown offered for any left item
is one and the same list — all right items of the question's pairs, in
sorted order, duplicates retained — independent of the left item being
matched. -/
theorem rightOptions_spec (q : Question) (leftItem₁ leftItem₂ : String) :
    offeredChoicesFor q leftItem₁ = offeredChoicesFor q leftItem₂ ∧
    (rightOptionsOf q).Sorted (· ≤ ·) ∧
    (rightOptionsOf q).Perm ((q.matchingPairs.getD []).map (fun p => p.right)) :=
  ⟨rfl, List.sorted_mergeSort' _, List.mergeSort_perm _ _⟩

/-! ## C9 — tutor follow-up failures degrade to a fallback string -/

/-- C9: whenever the remote call of a tutor follow-up query fails, the tutor
path (`handleAskAI` wrapping `explainQuestion`) produces the friendly
fallback string as the chat response instead of propagating the failure —
for a non-blank query the result is always the fallback string, and a blank
query never performs a remote call at all. -/
theorem handleAskAI_degrades_failure (chatInput : String) (apiKey : Option String)
    (m : String) (q : GradedQuestion) :
    handleAskAI chatInput apiKey (.failure m) q =
      if chatInput.trim = "" then none
      else some "Sorry, I couldn't connect to the AI tutor right now." := by
  unfold handleAskAI explainQuestion
  by_cases h : chatInput.trim = ""
  · simp [h]
  · simp only [h, if_false]
    cases hk : jsPresent apiKey <;> simp

/-! ## C6 — the sequencing encoding and its reversibility -/

theorem sepLeads_eq_true_iff (l : List Char) :
    sepLeads l = true ↔ ∃ r, l = ' ' :: '|' :: '|' :: ' ' :: r := by
  constructor
  · intro h
    unfold sepLeads at h
    split at h
    · exact ⟨_, rfl⟩
    · cases h
  · rintro ⟨r, rfl⟩
    rfl

theorem containsSep_cons_eq (c : Char) (cs : List Char) :
    containsSep (c :: cs) = (sepLeads (c :: cs) || containsSep cs) := rfl

theorem containsSep_cons_false {c : Char} {cs : List Char}
    (h : containsSep (c :: cs) = false) :
    sepLeads (c :: cs) = false ∧ containsSep cs = false := by
  rw [containsSep_cons_eq, Bool.or_eq_false_iff] at h
  exact h

theorem endsInSepOpen_cons_false {c : Char} {cs : List Char}
    (h : endsInSepOpen (c :: cs) = false) :
    c :: cs ≠ [' ', '|', '|'] ∧ endsInSepOpen cs = false := by
  by_cases hpat : c :: cs = [' ', '|', '|']
  · rw [endsInSepOpen, if_pos hpat] at h
    cases h
  · rw [endsInSepOpen, if_neg hpat] at h
    exact ⟨hpat, h⟩

/-- The central junction analysis: a separator-free piece that does not end
in `" ||"` cannot line up with the following separator to produce an
occurrence of `" || "` starting inside the piece. -/
theorem sepLeads_append_sep_false (c : Char) (cs t : List Char)
    (hcon : containsSep (c :: cs) = false)
    (hend : endsInSepOpen (c :: cs) = false) :
    sepLeads (c :: (cs ++ ' ' :: '|' :: '|' :: ' ' :: t)) = false := by
  by_contra h
  rw [Bool.not_eq_false] at h
  obtain ⟨r, hr⟩ := (sepLeads_eq_true_iff _).mp h
  rw [List.cons.injEq] at hr
  obtain ⟨hc, hr⟩ := hr
  subst hc
  cases cs with
  | nil => simp at hr
  | cons c1 cs1 =>
    rw [List.cons_append, List.cons.injEq] at hr
    obtain ⟨hc1, hr⟩ := hr
    subst hc1
    cases cs1 with
    | nil => simp at hr
    | cons c2 cs2 =>
      rw [List.cons_append, List.cons.injEq] at hr
      obtain ⟨hc2, hr⟩ := hr
      subst hc2
      cases cs2 with
      | nil =>
        exact absurd hend (by decide)
      | cons c3 cs3 =>
        rw [List.cons_append, List.cons.injEq] at hr
        obtain ⟨hc3, -⟩ := hr
        subst hc3
        exact absurd hcon (by simp [containsSep_cons_eq, sepLeads])

/-- Scanning a separator-free, `" ||"`-suffix-free piece followed by a
separator emits exactly that piece and continues after the separator. -/
theorem splitGo_middle (t : List Char) :
    ∀ (x acc : List Char), containsSep x = false → endsInSepOpen x = false →
      splitOnSepGo acc (x ++ ' ' :: '|' :: '|' :: ' ' :: t) =
        (acc.reverse ++ x) :: splitOnSepGo [] t := by
  intro x
  induction x with
  | nil =>
    intro acc _ _
    rw [List.nil_append, splitOnSepGo, if_pos (by rfl)]
    simp
  | cons c cs ih =>
    intro acc hcon hend
    have hnl := sepLeads_append_sep_false c cs t hcon hend
    rw [List.cons_append, splitOnSepGo, if_neg (by simp [hnl])]
    rw [ih (c :: acc) (containsSep_cons_false hcon).2 (endsInSepOpen_cons_false hend).2]
    simp

/-- Scanning a separator-free final piece emits it unchanged. -/
theorem splitGo_last :
    ∀ (x acc : List Char), containsSep x = false →
      splitOnSepGo acc x = [acc.reverse ++ x] := by
  intro x
  induction x with
  | nil =>
    intro acc _
    rw [splitOnSepGo]
    simp
  | cons c cs ih =>
    intro acc hcon
    obtain ⟨h1, h2⟩ := containsSep_cons_false hcon
    rw [splitOnSepGo, if_neg (by simp [h1]), ih (c :: acc) h2]
    simp

unseal splitOnSepGo in
/-- C6 counterexample: the item list `["x ||", "y"]` — no item contains the
separator `" || "` — joins to `"x || || y"`, whose leftmost `" || "`
occurrence starts inside the first item, so splitting yields
`["x", "|| y"]`, not the original list. -/
theorem sequencing_encoding_counterexample :
    containsSep ['x', ' ', '|', '|'] = false ∧
    containsSep ['y'] = false ∧
    splitOnSep (joinWithSep [['x', ' ', '|', '|'], ['y']]) =
      [['x'], ['|', '|', ' ', 'y']] ∧
    splitOnSep (joinWithSep [['x', ' ', '|', '|'], ['y']]) ≠
      [['x', ' ', '|', '|'], ['y']] := by
  refine ⟨rfl, rfl, rfl, ?_⟩
  intro h
  have h2 : splitOnSep (joinWithSep [['x', ' ', '|', '|'], ['y']]) =
      [['x'], ['|', '|', ' ', 'y']] := rfl
  rw [h2] at h
  simp at h

/-- C6 (amended): for every nonempty working item list whose items neither
contain the separator `" || "` nor end in `" ||"`, splitting the
`" || "`-join on `" || "` recovers exactly the original list. -/
theorem sequencing_encoding_roundtrip (items : List (List Char))
    (hne : items ≠ [])
    (hfree : ∀ x ∈ items, containsSep x = false)
    (hend : ∀ x ∈ items, endsInSepOpen x = false) :
    splitOnSep (joinWithSep items) = items := by
  induction items with
  | nil => cases hne rfl
  | cons x rest ih =>
    cases rest with
    | nil =>
      show splitOnSepGo [] (joinWithSep [x]) = [x]
      rw [show joinWithSep [x] = x from rfl,
        splitGo_last x [] (hfree x (by simp))]
      simp
    | cons y rest' =>
      show splitOnSepGo [] (joinWithSep (x :: y :: rest')) = x :: y :: rest'
      rw [show joinWithSep (x :: y :: rest') =
        x ++ ' ' :: '|' :: '|' :: ' ' :: joinWithSep (y :: rest') from rfl]
      rw [splitGo_middle (joinWithSep (y :: rest')) x []
        (hfree x (by simp)) (hend x (by simp))]
      have hr := ih (by simp)
        (fun z hz => hfree z (List.mem_cons_of_mem _ hz))
        (fun z hz => hend z (List.mem_cons_of_mem _ hz))
      rw [show splitOnSep (joinWithSep (y :: rest')) =
        splitOnSepGo [] (joinWithSep (y :: rest')) from rfl] at hr
      rw [hr]
      simp

/-- Witness for C6's amended claim at the spec's own example `["b","a","c"]`:
the encoding joins in order, and splitting recovers the list. -/
theorem sequencing_encoding_roundtrip_witness :
    joinWithSep [['b'], ['a'], ['c']] =
      ['b', ' ', '|', '|', ' ', 'a', ' ', '|', '|', ' ', 'c'] ∧
    splitOnSep (joinWithSep [['b'], ['a'], ['c']]) = [['b'], ['a'], ['c']] :=
  ⟨rfl, sequencing_encoding_roundtrip [['b'], ['a'], ['c']]
    (by simp) (by decide) (by decide)⟩

/-! ## Association-map lemmas for the answer record -/

theorem lookupKey_eq_none_iff (m : List (Nat × String)) (k : Nat) :
    lookupKey m k = none ↔ k ∉ keysOf m := by
  induction m with
  | nil => simp [lookupKey, keysOf]
  | cons e rest ih =>
    by_cases h : e.1 = k
    · simp [lookupKey, keysOf, h]
    · simp [lookupKey, keysOf, h, ih, Ne.symm h]

theorem lookupKey_setKey_self (m : List (Nat × String)) (k : Nat) (v : String) :
    lookupKey (setKey m k v) k = some v := by
  induction m with
  | nil => simp [setKey, lookupKey]
  | cons e rest ih =>
    obtain ⟨k', v'⟩ := e
    by_cases h1 : k < k'
    · simp [setKey, h1, lookupKey]
    · by_cases h2 : k = k'
      · simp [setKey, h1, h2, lookupKey]
      · have h3 : ¬ k' = k := fun h => h2 h.symm
        simp [setKey, h1, h2, lookupKey, h3, ih]

theorem lookupKey_setKey_ne (m : List (Nat × String)) (k : Nat) (v : String)
    (a : Nat) (h : a ≠ k) :
    lookupKey (setKey m k v) a = lookupKey m a := by
  have hka : ¬ k = a := Ne.symm h
  induction m with
  | nil => simp [setKey, lookupKey, hka]
  | cons e rest ih =>
    obtain ⟨k', v'⟩ := e
    by_cases h1 : k < k'
    · simp [setKey, h1, lookupKey, hka]
    · by_cases h2 : k = k'
      · subst h2
        simp [setKey, h1, lookupKey, hka]
      · by_cases h4 : k' = a
        · subst h4
          simp [setKey, h1, h2, lookupKey]
        · simp [setKey, h1, h2, lookupKey, h4, ih]

theorem keysOf_setKey (m : List (Nat × String)) (k : Nat) (v : String) (a : Nat) :
    a ∈ keysOf (setKey m k v) ↔ a = k ∨ a ∈ keysOf m := by
  induction m with
  | nil => simp [setKey, keysOf]
  | cons e rest ih =>
    obtain ⟨k', v'⟩ := e
    by_cases h1 : k < k'
    · simp [setKey, h1, keysOf]
    · by_cases h2 : k = k'
      · subst h2
        simp [setKey, h1, keysOf]
      · simp [setKey, h1, h2, keysOf] at ih ⊢
        tauto

theorem sortedKeys_setKey (m : List (Nat × String)) (k : Nat) (v : String)
    (h : (keysOf m).Pairwise (· < ·)) :
    (keysOf (setKey m k v)).Pairwise (· < ·) := by
  induction m with
  | nil => simp [setKey, keysOf]
  | cons e rest ih =>
    obtain ⟨k', v'⟩ := e
    rw [show keysOf ((k', v') :: rest) = k' :: keysOf rest from rfl,
      List.pairwise_cons] at h
    obtain ⟨h1, h2⟩ := h
    by_cases hc1 : k < k'
    · rw [show setKey ((k', v') :: rest) k v = (k, v) :: (k', v') :: rest by
        simp [setKey, hc1]]
      rw [show keysOf ((k, v) :: (k', v') :: rest) = k :: k' :: keysOf rest from rfl]
      refine List.pairwise_cons.mpr ⟨?_, List.pairwise_cons.mpr ⟨h1, h2⟩⟩
      intro a ha
      rcases List.mem_cons.mp ha with rfl | ha
      · exact hc1
      · exact lt_trans hc1 (h1 a ha)
    · by_cases hc2 : k = k'
      · subst hc2
        rw [show setKey ((k, v') :: rest) k v = (k, v) :: rest by
          simp [setKey, hc1]]
        exact List.pairwise_cons.mpr ⟨h1, h2⟩
      · rw [show setKey ((k', v') :: rest) k v = (k', v') :: setKey rest k v by
          simp [setKey, hc1, hc2]]
        rw [show keysOf ((k', v') :: setKey rest k v) = k' :: keysOf (setKey rest k v)
          from rfl]
        refine List.pairwise_cons.mpr ⟨?_, ih h2⟩
        intro a ha
        rcases (keysOf_setKey rest k v a).mp ha with rfl | ha
        · omega
        · exact h1 a ha

/-! ## Lemmas about `ensureAll` and the finalized answer list -/

theorem lookupAnswer_map (m : List (Nat × String)) (k : Nat) :
    lookupAnswer (m.map (fun e => { questionId := e.1, answer := e.2 })) k =
      lookupKey m k := by
  induction m with
  | nil => rfl
  | cons e rest ih =>
    by_cases h : e.1 = k
    · simp [lookupAnswer, lookupKey, h]
    · simp [lookupAnswer, lookupKey, h, ih]

theorem answerIds_map (m : List (Nat × String)) :
    answerIds (m.map (fun e => { questionId := e.1, answer := e.2 })) = keysOf m := by
  simp [answerIds, keysOf]

theorem any_id_false_iff (acc : List UserAnswer) (k : Nat) :
    (acc.any (fun a => a.questionId = k)) = false ↔ lookupAnswer acc k = none := by
  induction acc with
  | nil => simp [lookupAnswer]
  | cons a rest ih =>
    by_cases h : a.questionId = k
    · simp [lookupAnswer, h]
    · simp [lookupAnswer, h, ih]

theorem lookupAnswer_append_left {acc : List UserAnswer} {k : Nat} {v : String}
    (h : lookupAnswer acc k = some v) (l : List UserAnswer) :
    lookupAnswer (acc ++ l) k = some v := by
  induction acc with
  | nil => cases h
  | cons a rest ih =>
    by_cases ha : a.questionId = k
    · simp [lookupAnswer, ha] at h ⊢
      exact h
    · simp [lookupAnswer, ha] at h ⊢
      exact ih h

theorem lookupAnswer_append_none {acc : List UserAnswer} {k : Nat}
    (h : lookupAnswer acc k = none) (l : List UserAnswer) :
    lookupAnswer (acc ++ l) k = lookupAnswer l k := by
  induction acc with
  | nil => rfl
  | cons a rest ih =>
    by_cases ha : a.questionId = k
    · simp [lookupAnswer, ha] at h
    · simp [lookupAnswer, ha] at h ⊢
      exact ih h

theorem ensureAll_lookup_preserved (questions : List Question) :
    ∀ (acc : List UserAnswer) (k : Nat) (v : String),
      lookupAnswer acc k = some v →
      lookupAnswer (ensureAll questions acc) k = some v := by
  induction questions with
  | nil => intro acc k v h; exact h
  | cons q qs ih =>
    intro acc k v h
    rw [show ensureAll (q :: qs) acc = ensureAll qs
      (if acc.any (fun a => a.questionId = q.id) then acc
       else acc ++ [{ questionId := q.id, answer := "" }]) from rfl]
    by_cases hany : acc.any (fun a => a.questionId = q.id)
    · rw [if_pos hany]
      exact ih acc k v h
    · rw [if_neg hany]
      exact ih _ k v (lookupAnswer_append_left h _)

theorem ensureAll_lookup_default (questions : List Question) :
    ∀ (acc : List UserAnswer) (k : Nat),
      lookupAnswer acc k = none → k ∈ questions.map (fun q => q.id) →
      lookupAnswer (ensureAll questions acc) k = some "" := by
  induction questions with
  | nil => intro acc k _ hk; simp at hk
  | cons q qs ih =>
    intro acc k h hk
    rw [show ensureAll (q :: qs) acc = ensureAll qs
      (if acc.any (fun a => a.questionId = q.id) then acc
       else acc ++ [{ questionId := q.id, answer := "" }]) from rfl]
    by_cases hid : k = q.id
    · have hany : (acc.any (fun a => a.questionId = q.id)) = false := by
        rw [any_id_false_iff acc q.id, ← hid]
        exact h
      rw [if_neg (by simp [hany])]
      refine ensureAll_lookup_preserved qs _ k "" ?_
      rw [lookupAnswer_append_none h]
      simp [lookupAnswer, hid]
    · have hk' : k ∈ qs.map (fun q => q.id) := by
        rcases List.mem_map.mp hk with ⟨q', hq', hq'id⟩
        rcases List.mem_cons.mp hq' with rfl | hq'
        · exact absurd hq'id.symm hid
        · exact List.mem_map.mpr ⟨q', hq', hq'id⟩
      by_cases hany : acc.any (fun a => a.questionId = q.id)
      · rw [if_pos hany]
        exact ih acc k h hk'
      · rw [if_neg hany]
        refine ih _ k ?_ hk'
        rw [lookupAnswer_append_none h]
        simp [lookupAnswer, Ne.symm hid]

theorem answerIds_ensureAll_mem (questions : List Question) :
    ∀ (acc : List UserAnswer) (k : Nat),
      k ∈ answerIds (ensureAll questions acc) ↔
        k ∈ answerIds acc ∨ k ∈ questions.map (fun q => q.id) := by
  induction questions with
  | nil => intro acc k; simp [ensureAll]
  | cons q qs ih =>
    intro acc k
    rw [show ensureAll (q :: qs) acc = ensureAll qs
      (if acc.any (fun a => a.questionId = q.id) then acc
       else acc ++ [{ questionId := q.id, answer := "" }]) from rfl]
    by_cases hany : acc.any (fun a => a.questionId = q.id)
    · rw [if_pos hany]
      rw [ih acc k]
      have hqacc : q.id ∈ answerIds acc := by
        rcases List.any_eq_true.mp hany with ⟨a, ha, haid⟩
        simp only [decide_eq_true_eq] at haid
        exact haid ▸ List.mem_map.mpr ⟨a, ha, rfl⟩
      simp only [List.map_cons, List.mem_cons]
      constructor
      · tauto
      · rintro (h | rfl | h)
        · tauto
        · exact Or.inl hqacc
        · tauto
    · rw [if_neg hany]
      rw [ih _ k]
      have : answerIds (acc ++ [{ questionId := q.id, answer := "" }]) =
          answerIds acc ++ [q.id] := by simp [answerIds]
      rw [this]
      simp only [List.mem_append, List.mem_singleton, List.map_cons, List.mem_cons]
      tauto

theorem any_id_false_iff_not_mem (acc : List UserAnswer) (k : Nat) :
    (acc.any (fun a => a.questionId = k)) = false ↔ k ∉ answerIds acc := by
  induction acc with
  | nil => simp [answerIds]
  | cons a rest ih =>
    by_cases h : a.questionId = k
    · simp [answerIds, h]
    · simp only [List.any_cons, Bool.or_eq_false_iff, decide_eq_false_iff_not]
      rw [show answerIds (a :: rest) = a.questionId :: answerIds rest from rfl]
      simp [h, ih, Ne.symm h]

theorem answerIds_ensureAll_nodup (questions : List Question) :
    ∀ (acc : List UserAnswer), (answerIds acc).Nodup →
      (answerIds (ensureAll questions acc)).Nodup := by
  induction questions with
  | nil => intro acc h; exact h
  | cons q qs ih =>
    intro acc h
    rw [show ensureAll (q :: qs) acc = ensureAll qs
      (if acc.any (fun a => a.questionId = q.id) then acc
       else acc ++ [{ questionId := q.id, answer := "" }]) from rfl]
    by_cases hany : acc.any (fun a => a.questionId = q.id)
    · rw [if_pos hany]
      exact ih acc h
    · rw [if_neg hany]
      refine ih _ ?_
      have hmem : q.id ∉ answerIds acc :=
        (any_id_false_iff_not_mem acc q.id).mp (Bool.eq_false_iff.mpr hany)
      have heq : answerIds (acc ++ [{ questionId := q.id, answer := "" }]) =
          answerIds acc ++ [q.id] := by simp [answerIds]
      rw [heq]
      simp [List.nodup_append, h, hmem]

/-! ## Projection lemmas about the session transitions -/

theorem saveComplexAnswer_proj (questions : List Question) (s : QuizState) :
    (saveComplexAnswer questions s).currentIdx = s.currentIdx ∧
    (saveComplexAnswer questions s).sequenceItems = s.sequenceItems ∧
    (saveComplexAnswer questions s).matchSelections = s.matchSelections ∧
    (saveComplexAnswer questions s).timeLeft = s.timeLeft ∧
    (saveComplexAnswer questions s).timerActive = s.timerActive ∧
    (saveComplexAnswer questions s).shuffleCount = s.shuffleCount ∧
    (saveComplexAnswer questions s).submissions = s.submissions := by
  cases hq : (currentQuestion questions s).type <;> simp [saveComplexAnswer, hq]

theorem saveComplexAnswer_answers_cases (questions : List Question) (s : QuizState) :
    (saveComplexAnswer questions s).answers = s.answers ∨
    ∃ v, (saveComplexAnswer questions s).answers =
      setKey s.answers (currentQuestion questions s).id v := by
  cases hq : (currentQuestion questions s).type <;> simp [saveComplexAnswer, hq]

theorem questionInitEffect_proj (questions : List Question)
    (shuffle : Nat → List String → List String) (s : QuizState) :
    (questionInitEffect questions shuffle s).answers = s.answers ∧
    (questionInitEffect questions shuffle s).currentIdx = s.currentIdx ∧
    (questionInitEffect questions shuffle s).timeLeft = s.timeLeft ∧
    (questionInitEffect questions shuffle s).timerActive = s.timerActive ∧
    (questionInitEffect questions shuffle s).submissions = s.submissions := by
  cases hq : (currentQuestion questions s).type <;>
    cases hi : (currentQuestion questions s).sequencingItems <;>
    simp [questionInitEffect, hq, hi]

theorem moveItem_proj (s : QuizState) (i : Nat) (d : MoveDir) :
    (moveItem s i d).answers = s.answers ∧
    (moveItem s i d).currentIdx = s.currentIdx ∧
    (moveItem s i d).timeLeft = s.timeLeft ∧
    (moveItem s i d).timerActive = s.timerActive ∧
    (moveItem s i d).matchSelections = s.matchSelections ∧
    (moveItem s i d).shuffleCount = s.shuffleCount ∧
    (moveItem s i d).submissions = s.submissions := by
  cases d <;> simp only [moveItem] <;> split <;> simp

theorem moveItem_seq_perm (s : QuizState) (i : Nat) (d : MoveDir) :
    ((moveItem s i d).sequenceItems).Perm s.sequenceItems := by
  cases d <;> simp only [moveItem] <;> split
  · exact listSwap_perm _ _ _
  · exact List.Perm.refl _
  · exact listSwap_perm _ _ _
  · exact List.Perm.refl _

theorem step_currentIdx (questions : List Question)
    (shuffle : Nat → List String → List String) (s : QuizState) (e : QEvent) :
    (step questions shuffle s e).currentIdx =
      idxAfter questions.length s.currentIdx e := by
  cases e with
  | input v =>
    simp only [step]
    split <;> simp [idxAfter]
  | matchSelect l r =>
    simp only [step]
    split <;> simp [idxAfter]
  | move i d =>
    simp only [step]
    split
    · simp [idxAfter, (moveItem_proj _ _ _).2.1]
    · simp [idxAfter]
  | next =>
    simp only [step]
    split
    · rename_i hlast
      simp [idxAfter, hlast, (saveComplexAnswer_proj questions s).1]
    · rename_i hlast
      simp [idxAfter, hlast, (questionInitEffect_proj questions shuffle _).2.1,
        (saveComplexAnswer_proj questions s).1]
  | prev =>
    simp only [step]
    split
    · rename_i h0
      simp [idxAfter, h0]
    · rename_i h0
      simp [idxAfter, h0, (questionInitEffect_proj questions shuffle _).2.1]
  | tick =>
    simp only [step]
    split
    · split <;> simp [idxAfter]
    · simp [idxAfter]

theorem step_answers_cases (questions : List Question)
    (shuffle : Nat → List String → List String) (s : QuizState) (e : QEvent) :
    (step questions shuffle s e).answers = s.answers ∨
    ∃ v, (step questions shuffle s e).answers =
      setKey s.answers (currentQuestion questions s).id v := by
  cases e with
  | input v =>
    simp only [step]
    split
    · exact Or.inl rfl
    · exact Or.inl rfl
    · exact Or.inr ⟨v, rfl⟩
  | matchSelect l r =>
    simp only [step]
    split <;> exact Or.inl rfl
  | move i d =>
    simp only [step]
    split
    · exact Or.inl (moveItem_proj _ _ _).1
    · exact Or.inl rfl
  | next =>
    simp only [step]
    split
    · simpa using saveComplexAnswer_answers_cases questions s
    · rw [(questionInitEffect_proj questions shuffle _).1]
      simpa using saveComplexAnswer_answers_cases questions s
  | prev =>
    simp only [step]
    split
    · exact Or.inl rfl
    · exact Or.inl (questionInitEffect_proj questions shuffle _).1
  | tick =>
    simp only [step]
    split
    · split <;> exact Or.inl rfl
    · exact Or.inl rfl

theorem step_answers_mem (questions : List Question)
    (shuffle : Nat → List String → List String) (s : QuizState) (e : QEvent)
    (k : Nat) (hk : k ∈ keysOf (step questions shuffle s e).answers) :
    k ∈ keysOf s.answers ∨ k = (currentQuestion questions s).id := by
  rcases step_answers_cases questions shuffle s e with h | ⟨v, h⟩
  · rw [h] at hk
    exact Or.inl hk
  · rw [h] at hk
    rcases (keysOf_setKey _ _ _ _).mp hk with rfl | hk
    · exact Or.inr rfl
    · exact Or.inl hk

theorem step_answers_sorted (questions : List Question)
    (shuffle : Nat → List String → List String) (s : QuizState) (e : QEvent)
    (h : (keysOf s.answers).Pairwise (· < ·)) :
    (keysOf (step questions shuffle s e).answers).Pairwise (· < ·) := by
  rcases step_answers_cases questions shuffle s e with hc | ⟨v, hc⟩
  · rw [hc]; exact h
  · rw [hc]; exact sortedKeys_setKey _ _ _ h

/-! ## Run-level invariants of the session -/

theorem foldl_step_currentIdx (questions : List Question)
    (shuffle : Nat → List String → List String) :
    ∀ (events : List QEvent) (s : QuizState),
      (events.foldl (step questions shuffle) s).currentIdx =
        events.foldl (idxAfter questions.length) s.currentIdx := by
  intro events
  induction events with
  | nil => intro s; rfl
  | cons e es ih =>
    intro s
    rw [List.foldl_cons, List.foldl_cons, ih, step_currentIdx]

theorem foldl_step_sorted (questions : List Question)
    (shuffle : Nat → List String → List String) :
    ∀ (events : List QEvent) (s : QuizState),
      (keysOf s.answers).Pairwise (· < ·) →
      (keysOf ((events.foldl (step questions shuffle) s)).answers).Pairwise (· < ·) := by
  intro events
  induction events with
  | nil => intro s h; exact h
  | cons e es ih =>
    intro s h
    rw [List.foldl_cons]
    exact ih _ (step_answers_sorted _ _ _ _ h)

theorem foldl_step_answers_mem (questions : List Question)
    (shuffle : Nat → List String → List String) :
    ∀ (events : List QEvent) (s : QuizState) (k : Nat),
      k ∈ keysOf ((events.foldl (step questions shuffle) s)).answers →
      k ∈ keysOf s.answers ∨
        k ∈ (events.scanl (idxAfter questions.length) s.currentIdx).map
          (fun i => (questions.getD i default).id) := by
  intro events
  induction events with
  | nil =>
    intro s k hk
    exact Or.inl hk
  | cons e es ih =>
    intro s k hk
    rw [List.foldl_cons] at hk
    rcases ih (step questions shuffle s e) k hk with h | h
    · rcases step_answers_mem questions shuffle s e k h with h2 | h2
      · exact Or.inl h2
      · refine Or.inr ?_
        rw [List.scanl_cons]
        exact List.mem_map.mpr ⟨s.currentIdx, by simp, h2.symm⟩
    · refine Or.inr ?_
      rw [List.scanl_cons]
      rw [step_currentIdx] at h
      rcases List.mem_map.mp h with ⟨i, hi, hik⟩
      refine List.mem_map.mpr ⟨i, ?_, hik⟩
      simpa using Or.inr hi

theorem idxAfter_lt (n b : Nat) (e : QEvent) (h : b < n) : idxAfter n b e < n := by
  cases e <;> simp only [idxAfter] <;> (try split) <;> omega

theorem mem_scanl_lt (n : Nat) :
    ∀ (events : List QEvent) (b : Nat), b < n →
      ∀ i ∈ List.scanl (idxAfter n) b events, i < n := by
  intro events
  induction events with
  | nil =>
    intro b hb i hi
    rw [List.scanl_nil, List.mem_singleton] at hi
    omega
  | cons e es ih =>
    intro b hb i hi
    rw [List.scanl_cons] at hi
    rcases List.mem_cons.mp (by simpa using hi) with rfl | hi2
    · exact hb
    · exact ih _ (idxAfter_lt n b e hb) i hi2

theorem foldl_mem_scanl (n : Nat) :
    ∀ (events : List QEvent) (b : Nat),
      events.foldl (idxAfter n) b ∈ List.scanl (idxAfter n) b events := by
  intro events
  induction events with
  | nil => intro b; simp
  | cons e es ih =>
    intro b
    rw [List.foldl_cons, List.scanl_cons]
    simpa using Or.inr (ih (idxAfter n b e))

theorem questionInitEffect_matchSelections (questions : List Question)
    (shuffle : Nat → List String → List String) (s : QuizState)
    (h : s.matchSelections = []) :
    (questionInitEffect questions shuffle s).matchSelections = [] := by
  cases hq : (currentQuestion questions s).type <;>
    cases hi : (currentQuestion questions s).sequencingItems <;>
    simp [questionInitEffect, hq, hi, h]

theorem initState_proj (questions : List Question)
    (shuffle : Nat → List String → List String) (timeLimit : Nat) :
    (initState questions shuffle timeLimit).answers = [] ∧
    (initState questions shuffle timeLimit).currentIdx = 0 ∧
    (initState questions shuffle timeLimit).timeLeft = timeLimit * 60 ∧
    (initState questions shuffle timeLimit).timerActive = decide (0 < timeLimit) ∧
    (initState questions shuffle timeLimit).submissions = [] ∧
    (initState questions shuffle timeLimit).matchSelections = [] := by
  obtain ⟨h1, h2, h3, h4, h5⟩ := questionInitEffect_proj questions shuffle
    { answers := [], currentIdx := 0, timeLeft := timeLimit * 60,
      timerActive := decide (0 < timeLimit), sequenceItems := [],
      matchSelections := [], shuffleCount := 0, submissions := [] }
  exact ⟨h1, h2, h3, h4, h5,
    questionInitEffect_matchSelections questions shuffle _ rfl⟩

theorem getD_mem_of_lt (questions : List Question) (i : Nat)
    (h : i < questions.length) :
    questions.getD i default ∈ questions := by
  rw [List.getD_eq_getElem?_getD, List.getElem?_eq_getElem h]
  simpa using List.getElem_mem h

/-! ## The finalized answer list -/

theorem getFormattedAnswers_length (questions : List Question) (s : QuizState)
    (hids : (questions.map (fun q => q.id)).Nodup)
    (hsorted : (keysOf s.answers).Pairwise (· < ·))
    (hkeys : ∀ k ∈ keysOf s.answers, k ∈ questions.map (fun q => q.id))
    (hcur : (currentQuestion questions s).id ∈ questions.map (fun q => q.id)) :
    (getFormattedAnswers questions s).length = questions.length := by
  unfold getFormattedAnswers
  have hids_mapped := answerIds_map
    (setKey s.answers (currentQuestion questions s).id (currentAnsOf questions s))
  have hnodup_m : (keysOf (setKey s.answers (currentQuestion questions s).id
      (currentAnsOf questions s))).Nodup :=
    (sortedKeys_setKey s.answers _ _ hsorted).imp (fun hlt => Nat.ne_of_lt hlt)
  have hnodupL := answerIds_ensureAll_nodup questions _ (hids_mapped ▸ hnodup_m)
  have hmemL : ∀ k, k ∈ answerIds (ensureAll questions
      ((setKey s.answers (currentQuestion questions s).id
        (currentAnsOf questions s)).map
          (fun e => { questionId := e.1, answer := e.2 }))) ↔
      k ∈ questions.map (fun q => q.id) := by
    intro k
    rw [answerIds_ensureAll_mem, hids_mapped]
    constructor
    · rintro (hk | hk)
      · rcases (keysOf_setKey _ _ _ _).mp hk with rfl | hk
        · exact hcur
        · exact hkeys k hk
      · exact hk
    · intro hk
      exact Or.inr hk
  have hperm := (List.perm_ext_iff_of_nodup hnodupL hids).mpr hmemL
  have hlen := hperm.length_eq
  simpa [answerIds] using hlen

theorem getFormattedAnswers_lookup_cur (questions : List Question) (s : QuizState) :
    lookupAnswer (getFormattedAnswers questions s) (currentQuestion questions s).id =
      some (currentAnsOf questions s) := by
  unfold getFormattedAnswers
  apply ensureAll_lookup_preserved
  rw [lookupAnswer_map]
  exact lookupKey_setKey_self _ _ _

theorem getFormattedAnswers_lookup_default (questions : List Question)
    (s : QuizState) (q : Question) (hq : q ∈ questions)
    (hnot : q.id ∉ keysOf s.answers)
    (hne : q.id ≠ (currentQuestion questions s).id) :
    lookupAnswer (getFormattedAnswers questions s) q.id = some "" := by
  unfold getFormattedAnswers
  apply ensureAll_lookup_default
  · rw [lookupAnswer_map, lookupKey_setKey_ne _ _ _ _ hne]
    exact (lookupKey_eq_none_iff _ _).mpr hnot
  · exact List.mem_map.mpr ⟨q, hq, rfl⟩

/-! ## C1 — finalization completeness -/

/-- C1 counterexample: a two-question quiz whose first question is a
sequencing question with item `"a"`.  The user presses Next twice, never
filling anything; finalization still records `"a"` — the committed shuffled
working order — for the never-filled first question, not the empty string. -/
theorem finalization_counterexample :
    (runEvents [c1SeqQuestion, c1ShortQuestion] (fun _ l => l) 0
        [QEvent.next, QEvent.next]).submissions =
      [[{ questionId := 0, answer := "a" }, { questionId := 1, answer := "" }]] ∧
    ({ questionId := 0, answer := "a" } : UserAnswer).answer ≠ "" := by
  refine ⟨rfl, ?_⟩
  decide

/-- C1 (amended): for every event sequence, finalizing yields exactly one
`UserAnswer` per original question identity (size exactly `N`, given
pairwise-distinct identities); every question without a recorded answer
other than the current question maps to the empty string — in particular
every never-visited question does; the current question maps to its live
encoding, which for a sequencing question is its (possibly untouched)
shuffled working order rather than the empty string. -/
theorem finalization_spec (questions : List Question)
    (shuffle : Nat → List String → List String) (timeLimit : Nat)
    (events : List QEvent)
    (hids : (questions.map (fun q => q.id)).Nodup)
    (hN : 0 < questions.length) :
    (getFormattedAnswers questions
        (runEvents questions shuffle timeLimit events)).length =
      questions.length ∧
    (∀ q ∈ questions,
      q.id ∉ keysOf (runEvents questions shuffle timeLimit events).answers →
      q.id ≠ (currentQuestion questions
        (runEvents questions shuffle timeLimit events)).id →
      lookupAnswer (getFormattedAnswers questions
        (runEvents questions shuffle timeLimit events)) q.id = some "") ∧
    (∀ q ∈ questions,
      q.id ∉ (visitedIdxs questions.length events).map
        (fun i => (questions.getD i default).id) →
      lookupAnswer (getFormattedAnswers questions
        (runEvents questions shuffle timeLimit events)) q.id = some "") ∧
    lookupAnswer (getFormattedAnswers questions
        (runEvents questions shuffle timeLimit events))
      (currentQuestion questions
        (runEvents questions shuffle timeLimit events)).id =
      some (currentAnsOf questions
        (runEvents questions shuffle timeLimit events)) := by
  obtain ⟨hia, hii, -, -, -, -⟩ := initState_proj questions shuffle timeLimit
  have hrun : runEvents questions shuffle timeLimit events =
      events.foldl (step questions shuffle) (initState questions shuffle timeLimit) := rfl
  -- sortedness of the final answer keys
  have hsorted : (keysOf (runEvents questions shuffle timeLimit events).answers).Pairwise
      (· < ·) := by
    rw [hrun]
    exact foldl_step_sorted questions shuffle events _ (by rw [hia]; simp [keysOf])
  -- keys are identities of visited indices
  have hkeysvis : ∀ k ∈ keysOf (runEvents questions shuffle timeLimit events).answers,
      k ∈ (visitedIdxs questions.length events).map
        (fun i => (questions.getD i default).id) := by
    intro k hk
    rw [hrun] at hk
    rcases foldl_step_answers_mem questions shuffle events _ k hk with h | h
    · rw [hia] at h
      simp [keysOf] at h
    · rw [hii] at h
      exact h
  -- visited indices are in range
  have hvis_lt : ∀ i ∈ visitedIdxs questions.length events, i < questions.length :=
    mem_scanl_lt questions.length events 0 hN
  have hvis_ids : ∀ k ∈ (visitedIdxs questions.length events).map
      (fun i => (questions.getD i default).id),
      k ∈ questions.map (fun q => q.id) := by
    intro k hk
    rcases List.mem_map.mp hk with ⟨i, hi, rfl⟩
    exact List.mem_map.mpr ⟨questions.getD i default,
      getD_mem_of_lt questions i (hvis_lt i hi), rfl⟩
  have hkeys : ∀ k ∈ keysOf (runEvents questions shuffle timeLimit events).answers,
      k ∈ questions.map (fun q => q.id) :=
    fun k hk => hvis_ids k (hkeysvis k hk)
  -- the current index is a visited index
  have hcuridx : (runEvents questions shuffle timeLimit events).currentIdx =
      events.foldl (idxAfter questions.length) 0 := by
    rw [hrun, foldl_step_currentIdx, hii]
  have hcur_vis : (currentQuestion questions
      (runEvents questions shuffle timeLimit events)).id ∈
      (visitedIdxs questions.length events).map
        (fun i => (questions.getD i default).id) := by
    refine List.mem_map.mpr ⟨(runEvents questions shuffle timeLimit events).currentIdx,
      ?_, rfl⟩
    rw [hcuridx]
    exact foldl_mem_scanl questions.length events 0
  have hcur := hvis_ids _ hcur_vis
  refine ⟨getFormattedAnswers_length questions _ hids hsorted hkeys hcur, ?_, ?_, ?_⟩
  · intro q hq hnot hne
    exact getFormattedAnswers_lookup_default questions _ q hq hnot hne
  · intro q hq hnv
    refine getFormattedAnswers_lookup_default questions _ q hq ?_ ?_
    · intro hk
      exact hnv (hkeysvis q.id hk)
    · intro hk
      exact hnv (hk ▸ hcur_vis)
  · exact getFormattedAnswers_lookup_cur questions _

/-- Witness for C1's amended claim: a concrete two-question run pressing
Next once — the finalized list has exactly one answer per question. -/
theorem finalization_spec_witness :
    (getFormattedAnswers [c1SeqQuestion, c1ShortQuestion]
        (runEvents [c1SeqQuestion, c1ShortQuestion] (fun _ l => l) 0
          [QEvent.next])).length =
      ([c1SeqQuestion, c1ShortQuestion] : List Question).length :=
  (finalization_spec [c1SeqQuestion, c1ShortQuestion] (fun _ l => l) 0
    [QEvent.next] (by decide) (by decide)).1

/-! ## C2 — timer-driven finalization -/

theorem step_tick_idle (questions : List Question)
    (shuffle : Nat → List String → List String) (s : QuizState)
    (h : s.timerActive = false) :
    step questions shuffle s QEvent.tick = s := by
  simp only [step]
  rw [if_neg (by simp [h])]

theorem step_tick_dec (questions : List Question)
    (shuffle : Nat → List String → List String) (s : QuizState)
    (h : s.timerActive = true) (h2 : ¬ s.timeLeft ≤ 1) :
    step questions shuffle s QEvent.tick = { s with timeLeft := s.timeLeft - 1 } := by
  simp only [step]
  rw [if_pos (by simp [h]), if_neg h2]

theorem step_tick_fin (questions : List Question)
    (shuffle : Nat → List String → List String) (s : QuizState)
    (h : s.timerActive = true) (h2 : s.timeLeft ≤ 1) :
    step questions shuffle s QEvent.tick =
      { s with timeLeft := 0, timerActive := false,
               submissions := s.submissions ++ [getFormattedAnswers questions s] } := by
  simp only [step]
  rw [if_pos (by simp [h]), if_pos h2]

theorem tick_run_dec (questions : List Question)
    (shuffle : Nat → List String → List String) :
    ∀ (j : Nat) (s : QuizState), s.timerActive = true → j < s.timeLeft →
      (List.replicate j QEvent.tick).foldl (step questions shuffle) s =
        { s with timeLeft := s.timeLeft - j } := by
  intro j
  induction j with
  | zero =>
    intro s _ _
    simp
  | succ j ih =>
    intro s htrue hlt
    rw [List.replicate_succ, List.foldl_cons,
      step_tick_dec questions shuffle s htrue (by omega)]
    have hih := ih { s with timeLeft := s.timeLeft - 1 } htrue (by simp; omega)
    rw [hih]
    have harith : s.timeLeft - 1 - j = s.timeLeft - (j + 1) := by omega
    simp [harith]

theorem tick_run_idle (questions : List Question)
    (shuffle : Nat → List String → List String) :
    ∀ (m : Nat) (s : QuizState), s.timerActive = false →
      (List.replicate m QEvent.tick).foldl (step questions shuffle) s = s := by
  intro m
  induction m with
  | zero => intro s _; rfl
  | succ m ih =>
    intro s h
    rw [List.replicate_succ, List.foldl_cons, step_tick_idle questions shuffle s h]
    exact ih s h

set_option maxRecDepth 4000 in
theorem currentAnsOf_init (questions : List Question)
    (shuffle : Nat → List String → List String) (timeLimit : Nat) :
    currentAnsOf questions (initState questions shuffle timeLimit) =
      initialCurrentAnswer questions shuffle := by
  cases hq : (questions.getD 0 default).type <;>
    cases hi : (questions.getD 0 default).sequencingItems <;>
    simp only [currentAnsOf, initState, questionInitEffect, currentQuestion,
      initialCurrentAnswer, lookupKey, hq, hi] <;>
    rfl

theorem currentQuestion_init (questions : List Question)
    (shuffle : Nat → List String → List String) (timeLimit : Nat) :
    currentQuestion questions (initState questions shuffle timeLimit) =
      questions.getD 0 default := by
  unfold currentQuestion
  rw [(initState_proj questions shuffle timeLimit).2.1]

theorem getFormattedAnswers_congr (questions : List Question) (s₁ s₂ : QuizState)
    (h1 : s₁.answers = s₂.answers) (h2 : s₁.currentIdx = s₂.currentIdx)
    (h3 : s₁.sequenceItems = s₂.sequenceItems)
    (h4 : s₁.matchSelections = s₂.matchSelections) :
    getFormattedAnswers questions s₁ = getFormattedAnswers questions s₂ := by
  unfold getFormattedAnswers currentAnsOf currentQuestion
  rw [h1, h2, h3, h4]

set_option maxRecDepth 100000 in
/-- C2 counterexample: a one-minute session over a single sequencing question
with item `"a"` and no user events.  After the countdown the session
finalizes, but the recorded answer is `"a"` (the committed working order),
not the empty string. -/
theorem timeout_counterexample :
    (runEvents [c1SeqQuestion] (fun _ l => l) 1
        (List.replicate 60 QEvent.tick)).submissions =
      [[{ questionId := 0, answer := "a" }]] ∧
    ({ questionId := 0, answer := "a" } : UserAnswer).answer ≠ "" := by
  constructor
  · decide
  · decide

set_option maxRecDepth 10000 in
/-- C2 (amended): in a one-minute session with no user input, once at least
60 ticks have elapsed the session has finalized exactly once — the
submission list holds exactly the one finalized answer set, whose size is
the question count and whose every answer is the empty string except that a
sequencing first question records its shuffled item order joined by
`" || "`; any further tick leaves the state unchanged (the timer is
stopped). -/
theorem timeout_finalization_spec (questions : List Question)
    (shuffle : Nat → List String → List String) (k : Nat)
    (hids : (questions.map (fun q => q.id)).Nodup)
    (hN : 0 < questions.length) (hk : 60 ≤ k) :
    (runEvents questions shuffle 1 (List.replicate k QEvent.tick)).submissions =
      [getFormattedAnswers questions (initState questions shuffle 1)] ∧
    (getFormattedAnswers questions (initState questions shuffle 1)).length =
      questions.length ∧
    (∀ q ∈ questions,
      lookupAnswer (getFormattedAnswers questions (initState questions shuffle 1))
          q.id =
        some (if q.id = (questions.getD 0 default).id
              then initialCurrentAnswer questions shuffle else "")) ∧
    step questions shuffle
        (runEvents questions shuffle 1 (List.replicate k QEvent.tick)) QEvent.tick =
      runEvents questions shuffle 1 (List.replicate k QEvent.tick) := by
  obtain ⟨hia, hii, hit, hiact, hisub, -⟩ := initState_proj questions shuffle 1
  have hact : (initState questions shuffle 1).timerActive = true := by
    rw [hiact]
    decide
  -- the state after the first 59 ticks
  have h59 : (List.replicate 59 QEvent.tick).foldl (step questions shuffle)
      (initState questions shuffle 1) =
      { initState questions shuffle 1 with timeLeft := 1 } := by
    have := tick_run_dec questions shuffle 59 (initState questions shuffle 1)
      hact (by rw [hit]; omega)
    rw [this, hit]
  -- the state after 60 ticks: finalized exactly once
  have h60 : (List.replicate 60 QEvent.tick).foldl (step questions shuffle)
      (initState questions shuffle 1) =
      { initState questions shuffle 1 with
          timeLeft := 0, timerActive := false,
          submissions := (initState questions shuffle 1).submissions ++
            [getFormattedAnswers questions (initState questions shuffle 1)] } := by
    have hsplit : (List.replicate 60 QEvent.tick) =
        List.replicate 59 QEvent.tick ++ [QEvent.tick] := by
      rw [← List.replicate_succ']
    rw [hsplit, List.foldl_append, h59, List.foldl_cons, List.foldl_nil]
    rw [step_tick_fin questions shuffle
      { initState questions shuffle 1 with timeLeft := 1 } hact (by simp)]
    rw [getFormattedAnswers_congr questions
      { initState questions shuffle 1 with timeLeft := 1 }
      (initState questions shuffle 1) rfl rfl rfl rfl]
  -- the remaining ticks are idle
  have hfinal : runEvents questions shuffle 1 (List.replicate k QEvent.tick) =
      { initState questions shuffle 1 with
          timeLeft := 0, timerActive := false,
          submissions := (initState questions shuffle 1).submissions ++
            [getFormattedAnswers questions (initState questions shuffle 1)] } := by
    have hksplit : List.replicate k QEvent.tick =
        List.replicate 60 QEvent.tick ++ List.replicate (k - 60) QEvent.tick := by
      rw [← List.replicate_add]
      congr 1
      omega
    show (List.replicate k QEvent.tick).foldl (step questions shuffle)
      (initState questions shuffle 1) = _
    rw [hksplit, List.foldl_append, h60]
    exact tick_run_idle questions shuffle _ _ rfl
  have hsorted0 : (keysOf (initState questions shuffle 1).answers).Pairwise
      (· < ·) := by
    rw [hia]
    simp [keysOf]
  have hkeys0 : ∀ kk ∈ keysOf (initState questions shuffle 1).answers,
      kk ∈ questions.map (fun q => q.id) := by
    rw [hia]
    simp [keysOf]
  have hcur0 : (currentQuestion questions (initState questions shuffle 1)).id ∈
      questions.map (fun q => q.id) := by
    rw [currentQuestion_init]
    exact List.mem_map.mpr ⟨questions.getD 0 default, getD_mem_of_lt questions 0 hN, rfl⟩
  refine ⟨?_, ?_, ?_, ?_⟩
  · rw [hfinal]
    simp [hisub]
  · exact getFormattedAnswers_length questions _ hids hsorted0 hkeys0 hcur0
  · intro q hq
    by_cases hid : q.id = (questions.getD 0 default).id
    · rw [if_pos hid, hid, ← currentQuestion_init questions shuffle 1,
        getFormattedAnswers_lookup_cur, currentAnsOf_init]
    · rw [if_neg hid]
      refine getFormattedAnswers_lookup_default questions _ q hq ?_ ?_
      · rw [hia]
        simp [keysOf]
      · rw [currentQuestion_init]
        exact hid
  · rw [hfinal]
    exact step_tick_idle questions shuffle _ rfl

/-- Witness for C2's amended claim: a concrete one-question session that
times out after 60 ticks with exactly one submission. -/
theorem timeout_finalization_spec_witness :
    (runEvents [c1ShortQuestion] (fun _ l => l) 1
        (List.replicate 60 QEvent.tick)).submissions =
      [getFormattedAnswers [c1ShortQuestion]
        (initState [c1ShortQuestion] (fun _ l => l) 1)] :=
  (timeout_finalization_spec [c1ShortQuestion] (fun _ l => l) 60
    (by decide) (by decide) (by decide)).1

/-! ## C10 — the sequencing working list is a permutation of the items -/

theorem step_next_last (questions : List Question)
    (shuffle : Nat → List String → List String) (s : QuizState)
    (h : s.currentIdx = questions.length - 1) :
    step questions shuffle s QEvent.next =
      { saveComplexAnswer questions s with
          submissions := (saveComplexAnswer questions s).submissions ++
            [getFormattedAnswers questions (saveComplexAnswer questions s)] } := by
  simp only [step]
  rw [if_pos h]

theorem step_next_notlast (questions : List Question)
    (shuffle : Nat → List String → List String) (s : QuizState)
    (h : ¬ s.currentIdx = questions.length - 1) :
    step questions shuffle s QEvent.next =
      questionInitEffect questions shuffle
        { saveComplexAnswer questions s with
            currentIdx := (saveComplexAnswer questions s).currentIdx + 1 } := by
  simp only [step]
  rw [if_neg h]

theorem step_prev_zero (questions : List Question)
    (shuffle : Nat → List String → List String) (s : QuizState)
    (h : s.currentIdx = 0) :
    step questions shuffle s QEvent.prev = s := by
  simp only [step]
  rw [if_pos h]

theorem step_prev_pos (questions : List Question)
    (shuffle : Nat → List String → List String) (s : QuizState)
    (h : ¬ s.currentIdx = 0) :
    step questions shuffle s QEvent.prev =
      questionInitEffect questions shuffle { s with currentIdx := s.currentIdx - 1 } := by
  simp only [step]
  rw [if_neg h]

/-- The sequencing invariant a state can satisfy: whenever the current
question is a sequencing question with a present item list, the transient
working list is a permutation of those items. -/
def SeqInv (questions : List Question) (s : QuizState) : Prop :=
  ∀ items, (currentQuestion questions s).type = QuestionType.SEQUENCING →
    (currentQuestion questions s).sequencingItems = some items →
    (s.sequenceItems).Perm items

theorem questionInitEffect_establishes (questions : List Question)
    (shuffle : Nat → List String → List String) (s : QuizState)
    (hsh : ∀ n l, (shuffle n l).Perm l) :
    SeqInv questions (questionInitEffect questions shuffle s) := by
  intro items ht hi
  have hcq : currentQuestion questions (questionInitEffect questions shuffle s) =
      currentQuestion questions s := by
    unfold currentQuestion
    rw [(questionInitEffect_proj questions shuffle s).2.1]
  rw [hcq] at ht hi
  simp only [questionInitEffect, ht, hi]
  exact hsh s.shuffleCount items

theorem step_preserves_seqinv (questions : List Question)
    (shuffle : Nat → List String → List String)
    (hsh : ∀ n l, (shuffle n l).Perm l) (s : QuizState) (e : QEvent)
    (hinv : SeqInv questions s) :
    SeqInv questions (step questions shuffle s e) := by
  cases e with
  | input v =>
    simp only [step]
    split
    · exact hinv
    · exact hinv
    · exact hinv
  | matchSelect l r =>
    simp only [step]
    split
    · exact hinv
    · exact hinv
  | move i d =>
    simp only [step]
    split
    · intro items ht hi
      have hcq : currentQuestion questions (moveItem s i d) =
          currentQuestion questions s := by
        unfold currentQuestion
        rw [(moveItem_proj s i d).2.1]
      rw [hcq] at ht hi
      exact (moveItem_seq_perm s i d).trans (hinv items ht hi)
    · exact hinv
  | next =>
    by_cases hlast : s.currentIdx = questions.length - 1
    · rw [step_next_last questions shuffle s hlast]
      intro items ht hi
      have hcq : currentQuestion questions
          { saveComplexAnswer questions s with
              submissions := (saveComplexAnswer questions s).submissions ++
                [getFormattedAnswers questions (saveComplexAnswer questions s)] } =
          currentQuestion questions s := by
        unfold currentQuestion
        show questions.getD (saveComplexAnswer questions s).currentIdx default = _
        rw [(saveComplexAnswer_proj questions s).1]
      rw [hcq] at ht hi
      show (saveComplexAnswer questions s).sequenceItems.Perm items
      rw [(saveComplexAnswer_proj questions s).2.1]
      exact hinv items ht hi
    · rw [step_next_notlast questions shuffle s hlast]
      exact questionInitEffect_establishes questions shuffle _ hsh
  | prev =>
    by_cases h0 : s.currentIdx = 0
    · rw [step_prev_zero questions shuffle s h0]
      exact hinv
    · rw [step_prev_pos questions shuffle s h0]
      exact questionInitEffect_establishes questions shuffle _ hsh
  | tick =>
    simp only [step]
    split
    · split
      · exact hinv
      · exact hinv
    · exact hinv

theorem foldl_step_seqinv (questions : List Question)
    (shuffle : Nat → List String → List String)
    (hsh : ∀ n l, (shuffle n l).Perm l) :
    ∀ (events : List QEvent) (s : QuizState), SeqInv questions s →
      SeqInv questions (events.foldl (step questions shuffle) s) := by
  intro events
  induction events with
  | nil => intro s h; exact h
  | cons e es ih =>
    intro s h
    rw [List.foldl_cons]
    exact ih _ (step_preserves_seqinv questions shuffle hsh s e h)

/-- C10: for every reachable session state, whenever the current question is
a sequencing question its transient working list is a permutation of the
question's `sequencingItems` — the initial shuffle installs a permutation
and every `moveItem` swap (a no-op at the boundaries) preserves it — so the
committed sequencing answer contains each item exactly as often as the
question's item list does (exactly once for distinct items). -/
theorem sequencing_working_list_perm (questions : List Question)
    (shuffle : Nat → List String → List String) (timeLimit : Nat)
    (events : List QEvent)
    (hsh : ∀ n l, (shuffle n l).Perm l) :
    ∀ items,
      (currentQuestion questions
        (runEvents questions shuffle timeLimit events)).type =
          QuestionType.SEQUENCING →
      (currentQuestion questions
        (runEvents questions shuffle timeLimit events)).sequencingItems =
          some items →
      ((runEvents questions shuffle timeLimit events).sequenceItems).Perm items ∧
      (runEvents questions shuffle timeLimit events).sequenceItems.length =
        items.length ∧
      ∀ x, ((runEvents questions shuffle timeLimit events).sequenceItems).count x =
        items.count x := by
  intro items ht hi
  have hinit : SeqInv questions (initState questions shuffle timeLimit) :=
    questionInitEffect_establishes questions shuffle _ hsh
  have hperm := foldl_step_seqinv questions shuffle hsh events _ hinit items ht hi
  exact ⟨hperm, hperm.length_eq, fun x => hperm.count_eq x⟩

/-- Witness for C10: a concrete two-item sequencing question, one
swap-with-successor move; the working list stays a permutation of the
question's items. -/
theorem sequencing_working_list_perm_witness :
    ((runEvents [c10Question] (fun _ l => l) 0
        [QEvent.move 0 MoveDir.down]).sequenceItems).Perm ["a", "b"] :=
  ((sequencing_working_list_perm [c10Question] (fun _ l => l) 0
    [QEvent.move 0 MoveDir.down] (fun _ l => List.Perm.refl l)) ["a", "b"] rfl rfl).1

end QuizMaker
